import Mathlib

/-!
Verification of the two scripts of this repository
(`download_model.py` and `model_conversion.py`) against their
natural-language specification.

The scripts are sequential glue code: the download script fetches a fixed
manifest of files and reports an aggregate size verdict; the conversion
script builds an embedding network, exports it, measures the on-disk
footprint, and writes a README.  We embed both shallowly:

* network and filesystem effects become explicit parameters (a download
  oracle mapping filenames to an outcome, a directory modelled as a list
  of named entries);
* Python floats become exact rationals `ℚ` (every division in the scripts
  is by a power of two, which is exact in binary floating point, so the
  rational model agrees with the float semantics on the comparisons the
  scripts make);
* printing becomes an accumulated list of structured output lines
  carrying the printed data.
-/

namespace DownloadModel

/-- Fixed base URL of the remote weight repository (`BASE_URL`). -/
def BASE_URL : String :=
  "https://raw.githubusercontent.com/justadudewhohacks/face-api.js/master/weights"

/-- Hardcoded manifest (`MODELS`): model-group name to file list, in the
source's insertion order. -/
def MODELS : List (String × List String) :=
  [("tiny_face_detector",
     ["tiny_face_detector_model-weights_manifest.json",
      "tiny_face_detector_model-shard1"]),
   ("face_landmark_68_tiny",
     ["face_landmark_68_tiny_model-weights_manifest.json",
      "face_landmark_68_tiny_model-shard1"]),
   ("face_recognition",
     ["face_recognition_model-weights_manifest.json",
      "face_recognition_model-shard1",
      "face_recognition_model-shard2"])]

/-- Fixed output directory (`OUTPUT_DIR`). -/
def OUTPUT_DIR : String := "face_recognition_model"

/-- `os.path.join(a, b)` for a relative second component. -/
def path_join (a b : String) : String := a ++ "/" ++ b

/-- All filenames of the manifest in download order. -/
def manifestFiles : List String := (MODELS.map Prod.snd).flatten

/-- Outcome of one `urllib.request.urlretrieve` call together with the
resulting `os.path.getsize` in bytes: either the byte size of the file
written, or the message of the exception raised. -/
def DLOutcome : Type := Except String Nat

/-- One structured output line of the download script. -/
inductive Line : Type
  | downloading (filename : String)
  | downloaded (sizeKB : ℚ)
  | downloadError (msg : String)
  | modelHeader (name : String)
  | totalLine (sizeMB : ℚ)
  | success
  | downloadedTo (dir : String)
  deriving DecidableEq

/-- `download_file(url, output_path)`: prints the basename, retrieves the
URL; on success returns `os.path.getsize(output_path) / 1024` (KB), on any
exception prints the error and returns `0`.  The retrieval itself is the
`outcome` argument. -/
def download_file (filename : String) (outcome : DLOutcome) : ℚ × List Line :=
  match outcome with
  | Except.ok bytes =>
      let size : ℚ := (bytes : ℚ) / 1024
      (size, [Line.downloading filename, Line.downloaded size])
  | Except.error e =>
      (0, [Line.downloading filename, Line.downloadError e])

/-- State accumulated by `main`: running total (KB), printed lines,
and the `(url, output_path)` pairs of the downloads attempted. -/
structure DLRun : Type where
  total : ℚ
  lines : List Line
  attempts : List (String × String)
  exitCode : Nat
  deriving DecidableEq

/-- Body of the inner `for filename in files` loop of `main`. -/
def mainStep (env : String → DLOutcome) (acc : DLRun) (filename : String) :
    DLRun :=
  let url := BASE_URL ++ "/" ++ filename
  let output_path := path_join OUTPUT_DIR filename
  let res := download_file filename (env filename)
  { acc with
      total := acc.total + res.1
      lines := acc.lines ++ res.2
      attempts := acc.attempts ++ [(url, output_path)] }

/-- Body of the outer `for model_name, files in MODELS.items()` loop. -/
def groupStep (env : String → DLOutcome) (acc : DLRun) (pair : String × List String) :
    DLRun :=
  pair.2.foldl (mainStep env)
    { acc with lines := acc.lines ++ [Line.modelHeader pair.1] }

/-- The download loop of `main`, started from `total_size = 0`. -/
def loopResult (env : String → DLOutcome) : DLRun :=
  MODELS.foldl (groupStep env)
    { total := 0, lines := [], attempts := [], exitCode := 0 }

/-- `main()` of the download script: iterates the manifest, accumulates
`total_size`, prints the total in MB, prints the success banner exactly
when `total_size / 1024 <= 8.0`, and falls off the end of the script
(exit status 0).  The network is the oracle `env`. -/
def mainRun (env : String → DLOutcome) : DLRun :=
  let r1 : DLRun := loopResult env
  let r2 : DLRun := { r1 with lines := r1.lines ++ [Line.totalLine (r1.total / 1024)] }
  let r3 : DLRun := if r1.total / 1024 ≤ 8 then
      { r2 with lines := r2.lines ++ [Line.success] } else r2
  { r3 with lines := r3.lines ++ [Line.downloadedTo OUTPUT_DIR] }

/-- Size in KB contributed by one file under oracle `env`. -/
def reportedSize (env : String → DLOutcome) (f : String) : ℚ :=
  (download_file f (env f)).1

/-- The per-file sizes returned by `download_file` over the whole
manifest, in download order. -/
def reportedSizes (env : String → DLOutcome) : List ℚ :=
  manifestFiles.map (reportedSize env)

/-- The `(url, output_path)` pair `main` builds for one filename. -/
def attemptOf (f : String) : String × String :=
  (BASE_URL ++ "/" ++ f, path_join OUTPUT_DIR f)

lemma success_not_mem_download_file (f : String) (o : DLOutcome) :
    Line.success ∉ (download_file f o).2 := by
  cases o <;> simp [download_file]

lemma foldl_mainStep_total (env : String → DLOutcome) (fs : List String)
    (acc : DLRun) :
    (fs.foldl (mainStep env) acc).total
      = acc.total + (fs.map (reportedSize env)).sum := by
  induction fs generalizing acc with
  | nil => simp
  | cons f fs ih => simp [ih, mainStep, reportedSize, add_assoc]

lemma foldl_mainStep_attempts (env : String → DLOutcome) (fs : List String)
    (acc : DLRun) :
    (fs.foldl (mainStep env) acc).attempts = acc.attempts ++ fs.map attemptOf := by
  induction fs generalizing acc with
  | nil => simp
  | cons f fs ih => simp [ih, mainStep, attemptOf]

lemma foldl_mainStep_exitCode (env : String → DLOutcome) (fs : List String)
    (acc : DLRun) :
    (fs.foldl (mainStep env) acc).exitCode = acc.exitCode := by
  induction fs generalizing acc with
  | nil => rfl
  | cons f fs ih => simp [ih, mainStep]

lemma foldl_mainStep_success (env : String → DLOutcome) (fs : List String)
    (acc : DLRun) (h : Line.success ∉ acc.lines) :
    Line.success ∉ (fs.foldl (mainStep env) acc).lines := by
  induction fs generalizing acc with
  | nil => exact h
  | cons f fs ih =>
      refine ih _ ?_
      simp only [mainStep, List.mem_append, not_or]
      exact ⟨h, success_not_mem_download_file f (env f)⟩

lemma foldl_groupStep_total (env : String → DLOutcome)
    (ms : List (String × List String)) (acc : DLRun) :
    (ms.foldl (groupStep env) acc).total
      = acc.total + ((ms.map Prod.snd).flatten.map (reportedSize env)).sum := by
  induction ms generalizing acc with
  | nil => simp
  | cons p ms ih => simp [ih, groupStep, foldl_mainStep_total, add_assoc]

lemma foldl_groupStep_attempts (env : String → DLOutcome)
    (ms : List (String × List String)) (acc : DLRun) :
    (ms.foldl (groupStep env) acc).attempts
      = acc.attempts ++ (ms.map Prod.snd).flatten.map attemptOf := by
  induction ms generalizing acc with
  | nil => simp
  | cons p ms ih => simp [ih, groupStep, foldl_mainStep_attempts]

lemma foldl_groupStep_exitCode (env : String → DLOutcome)
    (ms : List (String × List String)) (acc : DLRun) :
    (ms.foldl (groupStep env) acc).exitCode = acc.exitCode := by
  induction ms generalizing acc with
  | nil => rfl
  | cons p ms ih => simp [ih, groupStep, foldl_mainStep_exitCode]

lemma foldl_groupStep_success (env : String → DLOutcome)
    (ms : List (String × List String)) (acc : DLRun)
    (h : Line.success ∉ acc.lines) :
    Line.success ∉ (ms.foldl (groupStep env) acc).lines := by
  induction ms generalizing acc with
  | nil => exact h
  | cons p ms ih =>
      refine ih _ ?_
      refine foldl_mainStep_success env _ _ ?_
      simp only [List.mem_append, not_or]
      exact ⟨h, by simp⟩

lemma loopResult_total (env : String → DLOutcome) :
    (loopResult env).total = (reportedSizes env).sum := by
  simp [loopResult, foldl_groupStep_total, reportedSizes, manifestFiles]

lemma loopResult_attempts (env : String → DLOutcome) :
    (loopResult env).attempts = manifestFiles.map attemptOf := by
  simp [loopResult, foldl_groupStep_attempts, manifestFiles]

lemma loopResult_exitCode (env : String → DLOutcome) :
    (loopResult env).exitCode = 0 := by
  simp [loopResult, foldl_groupStep_exitCode]

lemma loopResult_success (env : String → DLOutcome) :
    Line.success ∉ (loopResult env).lines := by
  exact foldl_groupStep_success env _ _ (by simp)

lemma div_1024_le_8_iff (q : ℚ) : q / 1024 ≤ 8 ↔ q ≤ 8192 := by
  rw [div_le_iff₀ (by norm_num : (0:ℚ) < 1024)]
  norm_num

/-- C1: the success banner is printed iff the accumulated total is at
most 8192 KB, for every sequence of per-file sizes returned by
`download_file`. -/
theorem downloader_success_iff_total_le_8192 (env : String → DLOutcome) :
    Line.success ∈ (mainRun env).lines ↔ (reportedSizes env).sum ≤ 8192 := by
  have htot := loopResult_total env
  have hns := loopResult_success env
  simp only [mainRun]
  by_cases hc : (loopResult env).total / 1024 ≤ 8
  · have : (reportedSizes env).sum ≤ 8192 := by
      rw [← htot]; exact (div_1024_le_8_iff _).mp hc
    simp [hc, this]
  · have : ¬ (reportedSizes env).sum ≤ 8192 := by
      rw [← htot]; exact fun h => hc ((div_1024_le_8_iff _).mpr h)
    simp [hc, this, hns]

/-- C2: an exception while downloading a file is absorbed inside
`download_file` (return value 0, error logged), and `main` always
attempts every manifest file, emits its final line, and exits with
status 0, for every download oracle. -/
theorem downloader_absorbs_errors (env : String → DLOutcome) (f : String)
    (e : String) :
    (download_file f (Except.error e)).1 = 0 ∧
    Line.downloadError e ∈ (download_file f (Except.error e)).2 ∧
    (mainRun env).attempts.length = manifestFiles.length ∧
    Line.downloadedTo OUTPUT_DIR ∈ (mainRun env).lines ∧
    (mainRun env).exitCode = 0 := by
  refine ⟨rfl, by simp [download_file], ?_, ?_, ?_⟩
  · simp only [mainRun]
    by_cases hc : (loopResult env).total / 1024 ≤ 8 <;>
      simp [hc, loopResult_attempts env]
  · simp only [mainRun]
    by_cases hc : (loopResult env).total / 1024 ≤ 8 <;> simp [hc]
  · simp only [mainRun]
    by_cases hc : (loopResult env).total / 1024 ≤ 8 <;>
      simp [hc, loopResult_exitCode env]

/-- C3: the printed total (in MB) is the sum of the per-file sizes
reported by `download_file` (in KB) divided by 1024, with no file
omitted or double counted. -/
theorem downloader_total_is_sum_of_reported (env : String → DLOutcome) :
    (mainRun env).total = (reportedSizes env).sum ∧
    Line.totalLine ((reportedSizes env).sum / 1024) ∈ (mainRun env).lines := by
  have htot := loopResult_total env
  constructor
  · simp only [mainRun]
    split_ifs <;> simp [htot]
  · simp only [mainRun]
    split_ifs <;> simp [← htot]

/-- C8: `main` attempts exactly 7 downloads, one per manifest filename
(2 tiny face detector files, 2 tiny landmark files, 3 face recognition
files), with URL `BASE_URL ++ "/" ++ filename` and local path inside
the fixed output directory. -/
theorem downloader_attempts_manifest (env : String → DLOutcome) :
    (mainRun env).attempts
        = manifestFiles.map (fun f => (BASE_URL ++ "/" ++ f, OUTPUT_DIR ++ "/" ++ f)) ∧
    (mainRun env).attempts.length = 7 ∧
    MODELS.map (fun p => p.2.length) = [2, 2, 3] ∧
    OUTPUT_DIR = "face_recognition_model" := by
  have hatt : (mainRun env).attempts = manifestFiles.map attemptOf := by
    simp only [mainRun]
    by_cases hc : (loopResult env).total / 1024 ≤ 8 <;>
      simp [hc, loopResult_attempts env]
  refine ⟨?_, ?_, by decide, rfl⟩
  · rw [hatt]
    simp [attemptOf, path_join]
  · rw [hatt]
    rfl

end DownloadModel

namespace ModelConversion

/-- `INPUT_SIZE` of `model_conversion.py`. -/
def INPUT_SIZE : Nat := 112

/-- `EMBEDDING_SIZE` of `model_conversion.py`. -/
def EMBEDDING_SIZE : Nat := 128

/-- `OUTPUT_DIR` of `model_conversion.py`. -/
def OUTPUT_DIR : String := "face_recognition_model"

/-- Default epsilon of `tf.nn.l2_normalize` (1e-12), the guard against
dividing a zero vector by zero. -/
noncomputable def l2Eps : ℝ := 1 / 10 ^ 12

/-- Sum of squares of a vector (idealized real arithmetic for the
script's float tensors). -/
noncomputable def sumSq {n : Nat} (v : Fin n → ℝ) : ℝ := ∑ i, v i ^ 2

/-- `tf.nn.l2_normalize(x, axis=1)` on one row:
`x / sqrt (max (sum (x^2)) eps)`. -/
noncomputable def l2_normalize {n : Nat} (v : Fin n → ℝ) : Fin n → ℝ :=
  fun i => v i / Real.sqrt (max (sumSq v) l2Eps)

/-- The final `Lambda` layer of `create_model`, applied to a batch:
`l2_normalize` row by row along axis 1. -/
noncomputable def lambdaLayer {b n : Nat} (batch : Fin b → Fin n → ℝ) :
    Fin b → Fin n → ℝ :=
  fun r => l2_normalize (batch r)

/-- L2 norm of a vector. -/
noncomputable def l2Norm {n : Nat} (v : Fin n → ℝ) : ℝ := Real.sqrt (sumSq v)

lemma sumSq_nonneg {n : Nat} (v : Fin n → ℝ) : 0 ≤ sumSq v :=
  Finset.sum_nonneg fun _ _ => sq_nonneg _

lemma l2Eps_pos : (0 : ℝ) < l2Eps := by norm_num [l2Eps]

lemma sumSq_l2_normalize {n : Nat} (v : Fin n → ℝ) (h : l2Eps ≤ sumSq v) :
    sumSq (l2_normalize v) = 1 := by
  have hS0 : 0 < sumSq v := lt_of_lt_of_le l2Eps_pos h
  have hmax : max (sumSq v) l2Eps = sumSq v := max_eq_left h
  have hsqrt : Real.sqrt (sumSq v) ^ 2 = sumSq v := Real.sq_sqrt (sumSq_nonneg v)
  calc sumSq (l2_normalize v)
      = ∑ i, (v i / Real.sqrt (max (sumSq v) l2Eps)) ^ 2 := rfl
    _ = ∑ i, v i ^ 2 / Real.sqrt (sumSq v) ^ 2 := by rw [hmax]; simp [div_pow]
    _ = (∑ i, v i ^ 2) / sumSq v := by rw [hsqrt, Finset.sum_div]
    _ = sumSq v / sumSq v := rfl
    _ = 1 := div_self hS0.ne'

lemma l2Norm_l2_normalize {n : Nat} (v : Fin n → ℝ) (h : l2Eps ≤ sumSq v) :
    l2Norm (l2_normalize v) = 1 := by
  unfold l2Norm
  rw [sumSq_l2_normalize v h, Real.sqrt_one]

/-- C4: every row of the output of the final normalization layer has L2
norm exactly 1 (in idealized real arithmetic), whatever the batch size,
provided the row's pre-normalization embedding is not below the
`tf.nn.l2_normalize` epsilon guard; and each output row depends only on
its own input row. -/
theorem embedding_rows_unit_norm {b n : Nat} (batch : Fin b → Fin n → ℝ)
    (r : Fin b) (h : l2Eps ≤ sumSq (batch r)) :
    l2Norm (lambdaLayer batch r) = 1 ∧
    lambdaLayer batch r = l2_normalize (batch r) :=
  ⟨l2Norm_l2_normalize _ h, rfl⟩

/-- Witness for `embedding_rows_unit_norm` at the all-ones row of a
one-element batch of 2-vectors. -/
theorem embedding_rows_unit_norm_witness :
    l2Eps ≤ sumSq (fun _ : Fin 2 => (1 : ℝ)) ∧
    (l2Norm (lambdaLayer (fun _ : Fin 1 => fun _ : Fin 2 => (1 : ℝ)) 0) = 1 ∧
     lambdaLayer (fun _ : Fin 1 => fun _ : Fin 2 => (1 : ℝ)) 0
       = l2_normalize ((fun _ : Fin 1 => fun _ : Fin 2 => (1 : ℝ)) 0)) := by
  have hyp : l2Eps ≤ sumSq (fun _ : Fin 2 => (1 : ℝ)) := by
    norm_num [sumSq, l2Eps, Fin.sum_univ_two]
  exact ⟨hyp, embedding_rows_unit_norm (fun _ : Fin 1 => fun _ : Fin 2 => (1 : ℝ)) 0 hyp⟩

/-! Filesystem model: the output directory is a list of its direct
entries (subdirectory contents are not direct entries), each a named
node that is a regular file, a directory, or something else, with a
byte size. -/

/-- Kind of a directory entry. -/
inductive EntryKind : Type
  | file
  | dir
  | other
  deriving DecidableEq

/-- One direct entry of a directory. -/
structure Entry : Type where
  name : String
  kind : EntryKind
  size : Nat
  deriving DecidableEq

/-- The names of the direct entries. -/
def names (d : List Entry) : List String := d.map Entry.name

/-- `os.listdir(output_dir)`. -/
def listdir (d : List Entry) : List String := d.map Entry.name

/-- Resolve a name among the direct entries. -/
def findEntry (d : List Entry) (n : String) : Option Entry :=
  match d with
  | [] => none
  | e :: es => if e.name = n then some e else findEntry es n

/-- `os.path.isfile(os.path.join(output_dir, n))`. -/
def isfile (d : List Entry) (n : String) : Bool :=
  match findEntry d n with
  | some e => e.kind = EntryKind.file
  | none => false

/-- `os.path.getsize(os.path.join(output_dir, n))` (the scripts only
query names returned by `listdir`). -/
def getsize (d : List Entry) (n : String) : Nat :=
  match findEntry d n with
  | some e => e.size
  | none => 0

/-- The `total_size` computation of `convert_to_tfjs`:
`sum(getsize(join(dir, f)) for f in listdir(dir) if isfile(join(dir, f)))`. -/
def measuredBytes (d : List Entry) : Nat :=
  (((listdir d).filter (fun f => isfile d f)).map (fun f => getsize d f)).sum

/-- `size_mb = total_size / (1024 * 1024)`. -/
def sizeMB (d : List Entry) : ℚ := (measuredBytes d : ℚ) / (1024 * 1024)

/-- The spec's formula: the sum of the byte sizes of every regular file
directly inside the directory (non-recursive, non-regular entries
excluded). -/
def regularFileBytes (d : List Entry) : Nat :=
  ((d.filter (fun e => e.kind = EntryKind.file)).map Entry.size).sum

lemma findEntry_cons_self (e : Entry) (es : List Entry) :
    findEntry (e :: es) e.name = some e := by
  simp [findEntry]

lemma findEntry_cons_ne (e : Entry) (es : List Entry) (f : String)
    (hne : ¬ e.name = f) :
    findEntry (e :: es) f = findEntry es f := by
  simp [findEntry, hne]

lemma isfile_cons_ne (e : Entry) (es : List Entry) (f : String)
    (hne : ¬ e.name = f) :
    isfile (e :: es) f = isfile es f := by
  simp [isfile, findEntry_cons_ne e es f hne]

lemma getsize_cons_ne (e : Entry) (es : List Entry) (f : String)
    (hne : ¬ e.name = f) :
    getsize (e :: es) f = getsize es f := by
  simp [getsize, findEntry_cons_ne e es f hne]

lemma measuredBytes_eq_regular (d : List Entry) (h : (names d).Nodup) :
    measuredBytes d = regularFileBytes d := by
  induction d with
  | nil => rfl
  | cons e es ih =>
      have h2 : (e.name :: names es).Nodup := h
      have hnotin : e.name ∉ names es := (List.nodup_cons.mp h2).1
      have hnd : (names es).Nodup := (List.nodup_cons.mp h2).2
      have hne : ∀ f ∈ listdir es, ¬ e.name = f := by
        intro f hf hw
        exact hnotin (by simpa [names, listdir, hw] using hf)
      have hfilter :
          (listdir es).filter (fun f => isfile (e :: es) f)
            = (listdir es).filter (fun f => isfile es f) :=
        List.filter_congr fun f hf => by rw [isfile_cons_ne e es f (hne f hf)]
      have hmap :
          ((listdir es).filter (fun f => isfile es f)).map
              (fun f => getsize (e :: es) f)
            = ((listdir es).filter (fun f => isfile es f)).map
              (fun f => getsize es f) :=
        List.map_congr_left fun f hf => by
          rw [getsize_cons_ne e es f (hne f (List.mem_filter.mp hf).1)]
      have hcons : measuredBytes (e :: es)
          = (((e.name :: listdir es).filter (fun f => isfile (e :: es) f)).map
              (fun f => getsize (e :: es) f)).sum := rfl
      by_cases hk : e.kind = EntryKind.file
      · have hhead : isfile (e :: es) e.name = true := by
          simp [isfile, findEntry_cons_self, hk]
        have hgetsize : getsize (e :: es) e.name = e.size := by
          simp [getsize, findEntry_cons_self]
        have hreg : regularFileBytes (e :: es) = e.size + regularFileBytes es := by
          simp [regularFileBytes, List.filter_cons, hk]
        rw [hcons, List.filter_cons, hhead, if_pos rfl, List.map_cons,
          List.sum_cons, hgetsize, hfilter, hmap, hreg, ← ih hnd]
        rfl
      · have hhead : isfile (e :: es) e.name = false := by
          simp [isfile, findEntry_cons_self, hk]
        have hreg : regularFileBytes (e :: es) = regularFileBytes es := by
          simp [regularFileBytes, List.filter_cons, hk]
        rw [hcons, List.filter_cons, hhead, if_neg (by simp), hfilter, hmap,
          hreg, ← ih hnd]
        rfl

/-- C5: under distinct entry names (as `os.listdir` guarantees), the
size computed by `convert_to_tfjs` is the sum of the byte sizes of the
regular files directly inside the output directory, divided by
`1024 * 1024`. -/
theorem export_size_is_direct_regular_sum (d : List Entry)
    (h : (names d).Nodup) :
    measuredBytes d = regularFileBytes d ∧
    sizeMB d = (regularFileBytes d : ℚ) / (1024 * 1024) := by
  refine ⟨measuredBytes_eq_regular d h, ?_⟩
  rw [sizeMB, measuredBytes_eq_regular d h]

/-- Witness for `export_size_is_direct_regular_sum` on a directory with
a regular file, a subdirectory and a non-regular entry. -/
theorem export_size_is_direct_regular_sum_witness :
    (names [⟨"model.json", EntryKind.file, 300⟩,
            ⟨"sub", EntryKind.dir, 4096⟩,
            ⟨"sock", EntryKind.other, 7⟩]).Nodup ∧
    (measuredBytes [⟨"model.json", EntryKind.file, 300⟩,
            ⟨"sub", EntryKind.dir, 4096⟩,
            ⟨"sock", EntryKind.other, 7⟩]
        = regularFileBytes [⟨"model.json", EntryKind.file, 300⟩,
            ⟨"sub", EntryKind.dir, 4096⟩,
            ⟨"sock", EntryKind.other, 7⟩] ∧
     sizeMB [⟨"model.json", EntryKind.file, 300⟩,
            ⟨"sub", EntryKind.dir, 4096⟩,
            ⟨"sock", EntryKind.other, 7⟩]
        = (regularFileBytes [⟨"model.json", EntryKind.file, 300⟩,
            ⟨"sub", EntryKind.dir, 4096⟩,
            ⟨"sock", EntryKind.other, 7⟩] : ℚ) / (1024 * 1024)) := by
  have h : (names [⟨"model.json", EntryKind.file, 300⟩,
            ⟨"sub", EntryKind.dir, 4096⟩,
            ⟨"sock", EntryKind.other, 7⟩]).Nodup := by decide
  exact ⟨h, export_size_is_direct_regular_sum _ h⟩

/-! Writing files.  Creating or truncating a file at a name either
overwrites the entry of that name or appends a fresh regular-file
entry.  `tfjs.converters.save_keras_model` is an external library call;
we abstract the artifact set it writes for the (fixed, deterministic)
model as a list of `(filename, byte size)` pairs. -/

/-- Write a regular file of `size` bytes at name `n` in the directory. -/
def writeFile (d : List Entry) (n : String) (size : Nat) : List Entry :=
  if n ∈ names d then
    d.map (fun e => if e.name = n then ⟨n, EntryKind.file, size⟩ else e)
  else d ++ [⟨n, EntryKind.file, size⟩]

/-- Write a whole artifact set, in order. -/
def writeFiles (d : List Entry) (fs : List (String × Nat)) : List Entry :=
  fs.foldl (fun acc p => writeFile acc p.1 p.2) d

lemma names_writeFile (d : List Entry) (n : String) (size : Nat) :
    names (writeFile d n size) = if n ∈ names d then names d else names d ++ [n] := by
  by_cases hmem : n ∈ names d
  · rw [if_pos hmem, writeFile, if_pos hmem]
    simp only [names, List.map_map]
    refine List.map_congr_left ?_
    intro e _
    by_cases he : e.name = n
    · simp [Function.comp, he]
    · simp [Function.comp, he]
  · rw [if_neg hmem, writeFile, if_neg hmem]
    simp [names]

lemma mem_names_writeFile_self (d : List Entry) (n : String) (size : Nat) :
    n ∈ names (writeFile d n size) := by
  rw [names_writeFile]
  by_cases hmem : n ∈ names d
  · simp [hmem]
  · simp [hmem]

lemma mem_names_writeFile_of_mem (d : List Entry) (n m : String) (size : Nat)
    (h : m ∈ names d) :
    m ∈ names (writeFile d n size) := by
  rw [names_writeFile]
  by_cases hmem : n ∈ names d <;> simp [hmem, h]

lemma mem_names_writeFile_elim (d : List Entry) (n m : String) (size : Nat)
    (h : m ∈ names (writeFile d n size)) :
    m ∈ names d ∨ m = n := by
  rw [names_writeFile] at h
  by_cases hmem : n ∈ names d
  · exact Or.inl (by simpa [hmem] using h)
  · simpa [hmem] using h

lemma mem_names_writeFiles_of_mem :
    ∀ (fs : List (String × Nat)) (d : List Entry) (m : String),
      m ∈ names d → m ∈ names (writeFiles d fs) := by
  intro fs
  induction fs with
  | nil => intro d m h; exact h
  | cons p fs ih =>
      intro d m h
      exact ih _ m (mem_names_writeFile_of_mem _ _ _ _ h)

lemma mem_names_writeFiles_artifact :
    ∀ (fs : List (String × Nat)) (d : List Entry) (p : String × Nat),
      p ∈ fs → p.1 ∈ names (writeFiles d fs) := by
  intro fs
  induction fs with
  | nil => intro d p h; cases h
  | cons q fs ih =>
      intro d p h
      rcases List.mem_cons.mp h with h' | h'
      · subst h'
        exact mem_names_writeFiles_of_mem fs _ _ (mem_names_writeFile_self _ _ _)
      · exact ih _ p h'

/-! The README written by `create_readme`.  The Python f-string template
is reproduced verbatim, split at its four JavaScript single quotes
(spliced back in as `quoteChar`) and at the `\x7bsize_mb:.2f\x7d`
insertion point (modelled by `formatFixed2`).  The content is pure
ASCII, so its byte size on disk is its character count. -/

/-- The single-quote character of the JS snippets in the README. -/
def quoteChar : String := String.singleton (Char.ofNat 39)

/-- Python float formatting `".2f"` on the exact rational value: round
to the nearest hundredth (CPython breaks exact ties to even; the sizes
the script prints never hit a tie) and render two decimal digits. -/
def formatFixed2 (q : ℚ) : String :=
  let scaled : Int := round (q * 100)
  let ip := scaled / 100
  let fp := (scaled % 100).toNat
  toString ip ++ "." ++ (if fp < 10 then "0" else "") ++ toString fp

/-- README template up to the size insertion. -/
def rmHead : String := "# Face Recognition Model (TensorFlow.js)\n\n**Size**: "

/-- README template, size insertion to first quote. -/
def rm1 : String := " MB | **Input**: 112x112 | **Output**: 128-D embedding\n\n## Usage in JavaScript:\n\n```javascript\nimport * as tf from "

/-- README template, first quoted JS string. -/
def rm2 : String := "@tensorflow/tfjs"

/-- README template, between the quoted JS strings. -/
def rm3 : String := ";\n\n// Load model\nconst model = await tf.loadGraphModel("

/-- README template, second quoted JS string. -/
def rm4 : String := "./model.json"

/-- README template after the last quote. -/
def rm5 : String := ");\n\n// Preprocess image\nconst input = tf.browser.fromPixels(image)\n  .resizeBilinear([112, 112])\n  .toFloat()\n  .sub(127.5)\n  .div(128.0)\n  .expandDims(0);\n\n// Get embedding\nconst embedding = model.predict(input);\nconst norm = embedding.norm(2, 1, true);\nconst normalized = embedding.div(norm);\n\n// Compare faces (cosine similarity)\nconst similarity = embedding1.dot(embedding2).dataSync()[0];\nconst isSame = similarity > 0.6;  // Threshold\n```\n\n## Model ready for browser deployment!\n"

/-- README template after the size insertion, reassembled. -/
def rmTail : String :=
  rm1 ++ (quoteChar ++ (rm2 ++ (quoteChar ++ (rm3 ++ (quoteChar ++ (rm4 ++ (quoteChar ++ rm5)))))))

/-- The full `content` string of `create_readme`. -/
def readmeContent (size_mb : ℚ) : String :=
  rmHead ++ (formatFixed2 size_mb ++ rmTail)

/-- Byte size of the README file once written (ASCII content). -/
def readmeBytes (size_mb : ℚ) : Nat := (readmeContent size_mb).length

/-- One structured output line of the conversion script. -/
inductive CLine : Type
  | modelSize (mb : ℚ)
  | success
  | readmeSaved
  | doneLine (dir : String)
  | fileListing (n : String)
  deriving DecidableEq

/-- Result of `convert_to_tfjs`: the returned `size_mb`, the directory
after the export, and the printed lines. -/
structure ConvertResult : Type where
  size_mb : ℚ
  dir : List Entry
  lines : List CLine
  deriving DecidableEq

/-- `convert_to_tfjs(model, output_dir)`: save the artifact set into the
directory, sum the direct regular files, print `MODEL SIZE`, print the
success banner exactly when `size_mb <= 2.0`, and return `size_mb`. -/
def convert_to_tfjs (artifacts : List (String × Nat)) (d : List Entry) :
    ConvertResult :=
  let d1 := writeFiles d artifacts
  let size_mb := sizeMB d1
  { size_mb := size_mb
    dir := d1
    lines := [CLine.modelSize size_mb]
      ++ (if size_mb ≤ 2 then [CLine.success] else []) }

/-- Result of `create_readme`. -/
structure ReadmeResult : Type where
  dir : List Entry
  text : String
  lines : List CLine
  deriving DecidableEq

/-- `create_readme(output_dir, size_mb)`: write `README.md` with the
templated content into the directory. -/
def create_readme (d : List Entry) (size_mb : ℚ) : ReadmeResult :=
  { dir := writeFile d "README.md" (readmeBytes size_mb)
    text := readmeContent size_mb
    lines := [CLine.readmeSaved] }

/-- Result of the conversion script's `main`. -/
structure MainResult : Type where
  size_mb : ℚ
  dir : List Entry
  readmeText : String
  lines : List CLine
  deriving DecidableEq

/-- `main()` of the conversion script: build the model, convert it
(obtaining `size`), write the README with that same `size`, print the
final banner and the file listing. -/
def mainConvert (artifacts : List (String × Nat)) (d0 : List Entry) :
    MainResult :=
  let c := convert_to_tfjs artifacts d0
  let r := create_readme c.dir c.size_mb
  { size_mb := c.size_mb
    dir := r.dir
    readmeText := r.text
    lines := c.lines ++ r.lines ++ [CLine.doneLine OUTPUT_DIR]
      ++ (listdir r.dir).map CLine.fileListing }

lemma mem_names_writeFiles_elim :
    ∀ (fs : List (String × Nat)) (d : List Entry) (m : String),
      m ∈ names (writeFiles d fs) → m ∈ names d ∨ m ∈ fs.map Prod.fst := by
  intro fs
  induction fs with
  | nil => intro d m h; exact Or.inl h
  | cons p fs ih =>
      intro d m h
      rcases ih _ m h with h' | h'
      · rcases mem_names_writeFile_elim _ _ _ _ h' with h'' | h''
        · exact Or.inl h''
        · exact Or.inr (by simp [h''])
      · exact Or.inr (by simp [h'])

/-- C6: the budget check of the export pipeline is advisory.  The
success banner appears iff the measured size is at most 2.0 MB, and in
every case (in particular over budget) no artifact is deleted, the
README is written, and `main` reaches its final print. -/
theorem export_budget_advisory (artifacts : List (String × Nat))
    (d0 : List Entry) :
    (CLine.success ∈ (mainConvert artifacts d0).lines
        ↔ (mainConvert artifacts d0).size_mb ≤ 2) ∧
    "README.md" ∈ names (mainConvert artifacts d0).dir ∧
    (∀ p ∈ artifacts, p.1 ∈ names (mainConvert artifacts d0).dir) ∧
    CLine.doneLine OUTPUT_DIR ∈ (mainConvert artifacts d0).lines := by
  refine ⟨?_, ?_, ?_, ?_⟩
  · simp only [mainConvert, convert_to_tfjs, create_readme]
    by_cases hc : sizeMB (writeFiles d0 artifacts) ≤ 2 <;>
      simp [hc, List.mem_append, List.mem_map]
  · exact mem_names_writeFile_self _ _ _
  · intro p hp
    exact mem_names_writeFile_of_mem _ _ _ _
      (mem_names_writeFiles_artifact artifacts d0 p hp)
  · simp [mainConvert, convert_to_tfjs, create_readme]

/-- `pat` occurs as a contiguous substring of `s`. -/
def strContains (s pat : String) : Prop := pat.data <:+: s.data

instance strContainsDecidable (s pat : String) : Decidable (strContains s pat) :=
  List.decidableInfix pat.data s.data

lemma strContains_append_left (s t pat : String) (h : strContains t pat) :
    strContains (s ++ t) pat := by
  unfold strContains at h ⊢
  rw [String.data_append]
  exact h.trans (List.suffix_append s.data t.data).isInfix

lemma strContains_append_right (s t pat : String) (h : strContains s pat) :
    strContains (s ++ t) pat := by
  unfold strContains at h ⊢
  rw [String.data_append]
  exact h.trans (List.prefix_append s.data t.data).isInfix

set_option maxRecDepth 8192 in
/-- C7: the README produced by `create_readme` always documents the
112x112 input resize, the 127.5 mean subtraction, the 128.0 scaling,
the 128-D embedding output, and the 0.6 cosine-similarity threshold,
whatever size value is spliced in. -/
theorem readme_documents_interface (q : ℚ) :
    strContains (readmeContent q) "112x112" ∧
    strContains (readmeContent q) "resizeBilinear([112, 112])" ∧
    strContains (readmeContent q) ".sub(127.5)" ∧
    strContains (readmeContent q) ".div(128.0)" ∧
    strContains (readmeContent q) "128-D embedding" ∧
    strContains (readmeContent q) "similarity > 0.6" := by
  have hlift : ∀ pat : String, strContains rmTail pat →
      strContains (readmeContent q) pat := by
    intro pat h
    exact strContains_append_left _ _ _ (strContains_append_left _ _ _ h)
  have hfrom1 : ∀ pat : String, strContains rm1 pat → strContains rmTail pat := by
    intro pat h
    exact strContains_append_right _ _ _ h
  have hfrom5 : ∀ pat : String, strContains rm5 pat → strContains rmTail pat := by
    intro pat h
    unfold rmTail
    iterate 8 apply strContains_append_left
    exact h
  refine ⟨?_, ?_, ?_, ?_, ?_, ?_⟩
  · exact hlift _ (hfrom1 _ (by decide))
  · exact hlift _ (hfrom5 _ (by decide))
  · exact hlift _ (hfrom5 _ (by decide))
  · exact hlift _ (hfrom5 _ (by decide))
  · exact hlift _ (hfrom1 _ (by decide))
  · exact hlift _ (hfrom5 _ (by decide))

/-- The directory entry an artifact write produces. -/
def artifactEntry (p : String × Nat) : Entry :=
  ⟨p.1, EntryKind.file, p.2⟩

lemma entry_eq_of_name_eq :
    ∀ (d : List Entry), (names d).Nodup →
      ∀ (e1 e2 : Entry), e1 ∈ d → e2 ∈ d → e1.name = e2.name → e1 = e2 := by
  intro d
  induction d with
  | nil => intro _ e1 e2 h1; cases h1
  | cons a es ih =>
      intro h e1 e2 h1 h2 hn
      have hh : (a.name :: names es).Nodup := h
      have hna : a.name ∉ names es := (List.nodup_cons.mp hh).1
      have hnd := (List.nodup_cons.mp hh).2
      rcases List.mem_cons.mp h1 with h1' | h1' <;>
        rcases List.mem_cons.mp h2 with h2' | h2'
      · rw [h1', h2']
      · exact absurd (by rw [← h1', hn]; exact List.mem_map_of_mem Entry.name h2') hna
      · exact absurd (by rw [← h2', ← hn]; exact List.mem_map_of_mem Entry.name h1') hna
      · exact ih hnd e1 e2 h1' h2' hn

lemma writeFile_overwrite_id (d : List Entry) (n : String) (s : Nat)
    (hmem : (⟨n, EntryKind.file, s⟩ : Entry) ∈ d) (h : (names d).Nodup) :
    writeFile d n s = d := by
  have hn : n ∈ names d := by
    simpa [names] using List.mem_map_of_mem Entry.name hmem
  rw [writeFile, if_pos hn]
  have hcong : ∀ e ∈ d,
      (if e.name = n then (⟨n, EntryKind.file, s⟩ : Entry) else e) = e := by
    intro e he
    by_cases hcase : e.name = n
    · rw [if_pos hcase]
      exact entry_eq_of_name_eq d h _ e hmem he (by simp [hcase])
    · rw [if_neg hcase]
  calc d.map (fun e => if e.name = n then (⟨n, EntryKind.file, s⟩ : Entry) else e)
      = d.map id := List.map_congr_left hcong
    _ = d := List.map_id d

lemma writeFiles_fresh :
    ∀ (A : List (String × Nat)) (d : List Entry),
      (∀ p ∈ A, p.1 ∉ names d) → (A.map Prod.fst).Nodup →
      writeFiles d A = d ++ A.map artifactEntry := by
  intro A
  induction A with
  | nil => intro d _ _; simp [writeFiles]
  | cons p A ih =>
      intro d hdisj hnd
      have hp : p.1 ∉ names d := hdisj p (by simp)
      have hw : writeFile d p.1 p.2 = d ++ [artifactEntry p] := by
        rw [writeFile, if_neg hp]; rfl
      have hdisj' : ∀ q ∈ A, q.1 ∉ names (d ++ [artifactEntry p]) := by
        intro q hq
        have hq1 : q.1 ∉ names d := hdisj q (by simp [hq])
        have hq2 : q.1 ≠ p.1 := by
          intro hqe
          refine (List.nodup_cons.mp hnd).1 ?_
          rw [← hqe]
          exact List.mem_map_of_mem Prod.fst hq
        simp [names, artifactEntry, hq2]
        simpa [names] using hq1
      have hnd' := (List.nodup_cons.mp hnd).2
      have hstep : writeFiles d (p :: A) = writeFiles (writeFile d p.1 p.2) A := rfl
      rw [hstep, hw, ih _ hdisj' hnd']
      simp

lemma writeFiles_overwrite_id :
    ∀ (A : List (String × Nat)) (d : List Entry),
      (∀ p ∈ A, artifactEntry p ∈ d) → (names d).Nodup →
      writeFiles d A = d := by
  intro A
  induction A with
  | nil => intro d _ _; rfl
  | cons p A ih =>
      intro d hmem h
      have hw : writeFile d p.1 p.2 = d :=
        writeFile_overwrite_id d p.1 p.2 (hmem p (by simp)) h
      have hstep : writeFiles d (p :: A) = writeFiles (writeFile d p.1 p.2) A := rfl
      rw [hstep, hw, ih d (fun q hq => hmem q (by simp [hq])) h]

lemma regularFileBytes_append (d d' : List Entry) :
    regularFileBytes (d ++ d') = regularFileBytes d + regularFileBytes d' := by
  simp [regularFileBytes, List.filter_append]

lemma regularFileBytes_artifacts (A : List (String × Nat)) :
    regularFileBytes (A.map artifactEntry) = (A.map Prod.snd).sum := by
  induction A with
  | nil => rfl
  | cons p A ih =>
      rw [List.map_cons]
      have h1 : regularFileBytes (artifactEntry p :: A.map artifactEntry)
          = p.2 + regularFileBytes (A.map artifactEntry) := by
        simp [regularFileBytes, artifactEntry, List.filter_cons]
      rw [h1, ih, List.map_cons, List.sum_cons]

lemma names_artifacts (A : List (String × Nat)) :
    names (A.map artifactEntry) = A.map Prod.fst := by
  show List.map Entry.name (A.map artifactEntry) = A.map Prod.fst
  rw [List.map_map]
  exact List.map_congr_left fun p _ => rfl

lemma names_append (d d' : List Entry) : names (d ++ d') = names d ++ names d' := by
  simp [names]

lemma sizeMB_append_readme (d : List Entry) (hnd : (names d).Nodup) (r : Nat)
    (hR : "README.md" ∉ names d) :
    sizeMB (d ++ [⟨"README.md", EntryKind.file, r⟩])
      = sizeMB d + (r : ℚ) / (1024 * 1024) := by
  have hnd2 : (names (d ++ [⟨"README.md", EntryKind.file, r⟩])).Nodup := by
    rw [names_append, List.nodup_append]
    refine ⟨hnd, by simp [names], ?_⟩
    intro a ha hb
    simp only [names, List.map_cons, List.map_nil, List.mem_singleton] at hb
    subst hb
    exact hR ha
  rw [sizeMB, sizeMB, measuredBytes_eq_regular _ hnd2, measuredBytes_eq_regular _ hnd,
    regularFileBytes_append]
  have hr : regularFileBytes [⟨"README.md", EntryKind.file, r⟩] = r := by
    simp [regularFileBytes]
  rw [hr]
  push_cast
  ring

lemma readmeBytes_pos (q : ℚ) : 0 < readmeBytes q := by
  have h : readmeBytes q
      = rmHead.length + ((formatFixed2 q).length + rmTail.length) := by
    simp [readmeBytes, readmeContent, String.length_append]
  rw [h]
  have h0 : 0 < rmHead.length := by decide
  omega

/-- Concrete artifact set for the rerun counterexample. -/
def cexArtifacts : List (String × Nat) :=
  [("model.json", 1200), ("group1-shard1of1.bin", 400000)]

lemma rerun_grows_by_readme (A : List (String × Nat))
    (hnd : (A.map Prod.fst).Nodup) (hR : "README.md" ∉ A.map Prod.fst) :
    (mainConvert A (mainConvert A []).dir).size_mb
      = (mainConvert A []).size_mb
        + (readmeBytes (mainConvert A []).size_mb : ℚ) / (1024 * 1024) ∧
    (mainConvert A (mainConvert A []).dir).size_mb
      ≠ (mainConvert A []).size_mb := by
  have hfresh : writeFiles [] A = A.map artifactEntry := by
    have h := writeFiles_fresh A [] (by intro p _; simp [names]) hnd
    simpa using h
  have hnames1 : names (writeFiles [] A) = A.map Prod.fst := by
    rw [hfresh, names_artifacts]
  have hnd1 : (names (writeFiles [] A)).Nodup := by rw [hnames1]; exact hnd
  have hRnot : "README.md" ∉ names (writeFiles [] A) := by rw [hnames1]; exact hR
  have hdir1 : (mainConvert A []).dir
      = writeFiles [] A
        ++ [⟨"README.md", EntryKind.file, readmeBytes (sizeMB (writeFiles [] A))⟩] := by
    show writeFile (writeFiles [] A) "README.md"
        (readmeBytes (sizeMB (writeFiles [] A))) = _
    rw [writeFile, if_neg hRnot]
  have hover : writeFiles ((mainConvert A []).dir) A = (mainConvert A []).dir := by
    apply writeFiles_overwrite_id
    · intro p hp
      rw [hdir1]
      refine List.mem_append_left _ ?_
      rw [hfresh]
      exact List.mem_map_of_mem artifactEntry hp
    · rw [hdir1, names_append, hnames1, List.nodup_append]
      refine ⟨hnd, by simp [names], ?_⟩
      intro a ha hb
      simp only [names, List.map_cons, List.map_nil, List.mem_singleton] at hb
      subst hb
      exact hR ha
  have hsz2 : (mainConvert A ((mainConvert A []).dir)).size_mb
      = sizeMB ((mainConvert A []).dir) := by
    show sizeMB (writeFiles ((mainConvert A []).dir) A) = _
    rw [hover]
  have hsz1 : (mainConvert A []).size_mb = sizeMB (writeFiles [] A) := rfl
  have hmain : (mainConvert A ((mainConvert A []).dir)).size_mb
      = (mainConvert A []).size_mb
        + (readmeBytes ((mainConvert A []).size_mb) : ℚ) / (1024 * 1024) := by
    rw [hsz2, hdir1, sizeMB_append_readme _ hnd1 _ hRnot, hsz1]
  refine ⟨hmain, ?_⟩
  rw [hmain]
  have hpos : (0 : ℚ) < (readmeBytes ((mainConvert A []).size_mb) : ℚ) / (1024 * 1024) := by
    apply div_pos
    · exact_mod_cast readmeBytes_pos _
    · norm_num
  exact ne_of_gt (lt_add_of_pos_right _ hpos)

/-- C9 counterexample: for a concrete deterministic artifact set,
re-running the export on the directory left by the first run reports a
different measured size than the first run (the first run's README.md
is now part of the directory sum). -/
theorem export_rerun_size_not_stable :
    (mainConvert cexArtifacts (mainConvert cexArtifacts []).dir).size_mb
      ≠ (mainConvert cexArtifacts []).size_mb :=
  (rerun_grows_by_readme cexArtifacts (by decide) (by decide)).2

/-- C9 (amended): re-running the export with the unchanged (hence
identical) artifact set on the directory left by the first run reports
a size larger than the first run's by exactly the byte size of the
README.md the first run wrote; in particular the measured size is not
stable between the first and second runs. -/
theorem export_rerun_size_grows_by_readme (A : List (String × Nat))
    (hnd : (A.map Prod.fst).Nodup) (hR : "README.md" ∉ A.map Prod.fst) :
    (mainConvert A (mainConvert A []).dir).size_mb
      = (mainConvert A []).size_mb
        + (readmeBytes (mainConvert A []).size_mb : ℚ) / (1024 * 1024) ∧
    (mainConvert A (mainConvert A []).dir).size_mb
      ≠ (mainConvert A []).size_mb :=
  rerun_grows_by_readme A hnd hR

/-- Witness for `export_rerun_size_grows_by_readme` at the concrete
artifact set. -/
theorem export_rerun_size_grows_by_readme_witness :
    ((cexArtifacts.map Prod.fst).Nodup ∧
      "README.md" ∉ cexArtifacts.map Prod.fst) ∧
    ((mainConvert cexArtifacts (mainConvert cexArtifacts []).dir).size_mb
      = (mainConvert cexArtifacts []).size_mb
        + (readmeBytes (mainConvert cexArtifacts []).size_mb : ℚ) / (1024 * 1024) ∧
     (mainConvert cexArtifacts (mainConvert cexArtifacts []).dir).size_mb
       ≠ (mainConvert cexArtifacts []).size_mb) := by
  have h1 : (cexArtifacts.map Prod.fst).Nodup := by decide
  have h2 : "README.md" ∉ cexArtifacts.map Prod.fst := by decide
  exact ⟨⟨h1, h2⟩, export_rerun_size_grows_by_readme cexArtifacts h1 h2⟩

/-- C10: the README text embeds exactly the size value returned by
`convert_to_tfjs`, the same value printed in the `MODEL SIZE` banner;
that value is measured on the directory as it stands after the export
and before the README write, and when no README.md pre-exists (fresh
output directory) that measured directory holds no README at all, so
the README's own bytes are not part of the reported size. -/
theorem readme_reports_measured_size (A : List (String × Nat)) (d0 : List Entry)
    (h0 : "README.md" ∉ names d0) (hA : "README.md" ∉ A.map Prod.fst) :
    (mainConvert A d0).readmeText = readmeContent (mainConvert A d0).size_mb ∧
    CLine.modelSize (mainConvert A d0).size_mb ∈ (mainConvert A d0).lines ∧
    (mainConvert A d0).size_mb = sizeMB (writeFiles d0 A) ∧
    "README.md" ∉ names (writeFiles d0 A) := by
  refine ⟨rfl, ?_, rfl, ?_⟩
  · simp [mainConvert, convert_to_tfjs, create_readme]
  · intro hmem
    rcases mem_names_writeFiles_elim A d0 _ hmem with h | h
    · exact h0 h
    · exact hA h

/-- Witness for `readme_reports_measured_size` on a fresh directory and
a one-artifact export. -/
theorem readme_reports_measured_size_witness :
    ("README.md" ∉ names ([] : List Entry) ∧
      "README.md" ∉ ([("model.json", 100)] : List (String × Nat)).map Prod.fst) ∧
    ((mainConvert [("model.json", 100)] []).readmeText
        = readmeContent (mainConvert [("model.json", 100)] []).size_mb ∧
     CLine.modelSize (mainConvert [("model.json", 100)] []).size_mb
        ∈ (mainConvert [("model.json", 100)] []).lines ∧
     (mainConvert [("model.json", 100)] []).size_mb
        = sizeMB (writeFiles [] [("model.json", 100)]) ∧
     "README.md" ∉ names (writeFiles [] [("model.json", 100)])) := by
  have h0 : "README.md" ∉ names ([] : List Entry) := by simp [names]
  have hA : "README.md" ∉ ([("model.json", 100)] : List (String × Nat)).map Prod.fst := by
    decide
  exact ⟨⟨h0, hA⟩, readme_reports_measured_size [("model.json", 100)] [] h0 hA⟩

end ModelConversion
